import Mathlib

/-!
Verification of the power-iteration eigen-solver in
`gtsam/linear/PowerMethod.h` (class `PowerMethod<Operator>`).

The solver works on real dense vectors; we embed Eigen vectors as `List ℝ`
and a concrete operator (the template parameter `Operator` used through
`A_ * x` and `A.rows()`) as a list of rows, so that `A * x` is one dot
product per row.  The mutable fields of the C++ object
(`nrIterations_`, `ritzValue_`, `ritzVector_`) become a `State` record;
the `const Operator &A_` reference is an explicit argument to every
operation.  `Vector::Random(dim_)` is modelled by an explicit `rand`
argument of the constructor, used only when no initial vector is given.
-/

namespace PowerMethodModel

/-- A dense real vector (Eigen `Vector`). -/
abbrev Vec := List ℝ

/-- A matrix as a list of rows (the `Operator` template argument: all the
solver uses is `A * x` and `A.rows()`). -/
abbrev Mat := List Vec

/-- Dot product, Eigen `x.dot(y)`. -/
def dot (x y : Vec) : ℝ := (List.zipWith (fun a b => a * b) x y).sum

/-- Matrix-vector product, Eigen `A * x`: one dot product per row. -/
def matVec (A : Mat) (x : Vec) : Vec := A.map (fun r => dot r x)

/-- Squared Euclidean norm, Eigen `x.squaredNorm()`. -/
def sqNorm (x : Vec) : ℝ := dot x x

/-- Euclidean norm, Eigen `x.norm()`. -/
noncomputable def vnorm (x : Vec) : ℝ := Real.sqrt (sqNorm x)

/-- Scalar multiple of a vector. -/
def smul (c : ℝ) (x : Vec) : Vec := x.map (fun a => c * a)

/-- Componentwise difference, Eigen `x - y`. -/
def vsub (x y : Vec) : Vec := List.zipWith (fun a b => a - b) x y

/-- Eigen `MatrixBase::normalize()`: divide by the norm when the squared
norm is positive, otherwise leave the vector unchanged (Eigen guards the
division with `if(z > RealScalar(0))`). -/
noncomputable def normalize (x : Vec) : Vec :=
  if 0 < sqNorm x then smul (1 / vnorm x) x else x

/-- The mutable fields of a `PowerMethod` object: `nrIterations_`,
`ritzValue_`, `ritzVector_`. -/
structure State where
  nrIterations : ℕ
  ritzValue : ℝ
  ritzVector : Vec

/-- `PowerMethod::powerIteration(x)`: return `A * x` normalized
(source lines 70-74: `Vector y = A_ * x; y.normalize(); return y;`). -/
noncomputable def powerIteration (A : Mat) (x : Vec) : Vec :=
  normalize (matVec A x)

/-- The `PowerMethod` constructor (source lines 54-67): take the supplied
initial vector, or the random vector `rand` when none is supplied;
normalize it; set `ritzValue_ = 0.0`; set
`ritzVector_ = powerIteration(x0)`; `nrIterations_ = 0`.  The constructor
performs no dimension check on the supplied vector. -/
noncomputable def init (A : Mat) (initial : Option Vec) (rand : Vec) : State :=
  let x0 := normalize (initial.getD rand)
  { nrIterations := 0, ritzValue := 0, ritzVector := powerIteration A x0 }

/-- `PowerMethod::converged(tol)` (source lines 82-88): with
`x = ritzVector_`, recompute the Rayleigh quotient locally and return
whether the Ritz residual norm is strictly below `tol`.  The stored
`ritzValue_` field is not read. -/
noncomputable def converged (A : Mat) (s : State) (tol : ℝ) : Bool :=
  let x := s.ritzVector
  let ritzValue := dot x (matVec A x)
  let error := vnorm (vsub (matVec A x) (smul ritzValue x))
  decide (error < tol)

/-- One execution of the loop body of `compute` (source lines 101-107):
increment `nrIterations_`, replace `ritzVector_` by
`powerIteration(ritzVector_)`, recompute `ritzValue_` as the Rayleigh
quotient of the new vector. -/
noncomputable def stepFn (A : Mat) (s : State) : State :=
  let v := powerIteration A s.ritzVector
  { nrIterations := s.nrIterations + 1
    ritzValue := dot v (matVec A v)
    ritzVector := v }

/-- `PowerMethod::compute(maxIterations, tol)` (source lines 97-111):
`isConverged` starts `false`; run the loop body up to `maxIterations`
times, stopping as soon as `converged(tol)` holds after a step; return
the final state together with the returned boolean. -/
noncomputable def compute (A : Mat) (tol : ℝ) : ℕ → State → State × Bool
  | 0, s => (s, false)
  | n + 1, s =>
    let s' := stepFn A s
    if converged A s' tol then (s', true) else compute A tol n s'

/-- `PowerMethod::eigenvalue()`: read `ritzValue_`. -/
def eigenvalue (s : State) : ℝ := s.ritzValue

/-- `PowerMethod::eigenvector()`: read `ritzVector_`. -/
def eigenvector (s : State) : Vec := s.ritzVector

/-- `PowerMethod::nrIterations()` (`iterationsPerformed`): read
`nrIterations_`. -/
def nrIterationsOf (s : State) : ℕ := s.nrIterations

/-! ### Basic vector algebra lemmas -/

lemma dot_nil (y : Vec) : dot [] y = 0 := rfl

lemma dot_cons (a b : ℝ) (x y : Vec) :
    dot (a :: x) (b :: y) = a * b + dot x y := by
  simp [dot]

lemma smul_cons (c a : ℝ) (x : Vec) : smul c (a :: x) = (c * a) :: smul c x := rfl

lemma dot_smul_smul (c d : ℝ) : ∀ x y : Vec,
    dot (smul c x) (smul d y) = (c * d) * dot x y
  | [], _ => by simp [dot, smul]
  | _ :: _, [] => by simp [dot, smul]
  | a :: x, b :: y => by
    rw [smul_cons, smul_cons, dot_cons, dot_cons, dot_smul_smul c d x y]
    ring

lemma sqNorm_nonneg : ∀ x : Vec, 0 ≤ sqNorm x
  | [] => le_refl 0
  | a :: x => by
    have h := sqNorm_nonneg x
    unfold sqNorm at h ⊢
    rw [dot_cons]
    nlinarith [mul_self_nonneg a]

lemma sqNorm_smul (c : ℝ) (x : Vec) : sqNorm (smul c x) = (c * c) * sqNorm x := by
  unfold sqNorm
  exact dot_smul_smul c c x x

lemma sqNorm_normalize {x : Vec} (h : 0 < sqNorm x) : sqNorm (normalize x) = 1 := by
  unfold normalize
  rw [if_pos h, sqNorm_smul]
  have hs : Real.sqrt (sqNorm x) * Real.sqrt (sqNorm x) = sqNorm x :=
    Real.mul_self_sqrt (le_of_lt h)
  have hne : sqNorm x ≠ 0 := ne_of_gt h
  unfold vnorm
  field_simp

lemma vnorm_normalize {x : Vec} (h : 0 < sqNorm x) : vnorm (normalize x) = 1 := by
  unfold vnorm
  rw [sqNorm_normalize h, Real.sqrt_one]

lemma normalize_of_sqNorm_one {x : Vec} (h : sqNorm x = 1) : normalize x = x := by
  unfold normalize
  rw [if_pos (h ▸ one_pos), vnorm, h, Real.sqrt_one]
  simp [smul]

lemma normalize_of_sqNorm_zero {x : Vec} (h : sqNorm x = 0) : normalize x = x := by
  unfold normalize
  rw [if_neg (by rw [h]; exact lt_irrefl 0)]

/-! ### Structural lemmas about the solver operations -/

lemma compute_zero (A : Mat) (tol : ℝ) (s : State) :
    compute A tol 0 s = (s, false) := rfl

lemma compute_succ (A : Mat) (tol : ℝ) (n : ℕ) (s : State) :
    compute A tol (n + 1) s =
      if converged A (stepFn A s) tol then (stepFn A s, true)
      else compute A tol n (stepFn A s) := rfl

lemma stepFn_nrIterations (A : Mat) (s : State) :
    (stepFn A s).nrIterations = s.nrIterations + 1 := rfl

lemma stepFn_rayleigh (A : Mat) (s : State) :
    (stepFn A s).ritzValue =
      dot (stepFn A s).ritzVector (matVec A (stepFn A s).ritzVector) := rfl

lemma stepFn_ritzVector (A : Mat) (s : State) :
    (stepFn A s).ritzVector = powerIteration A s.ritzVector := rfl

lemma iterate_stepFn_nrIterations (A : Mat) : ∀ (k : ℕ) (s : State),
    (((stepFn A)^[k]) s).nrIterations = s.nrIterations + k
  | 0, s => rfl
  | k + 1, s => by
    rw [Function.iterate_succ_apply', stepFn_nrIterations,
      iterate_stepFn_nrIterations A k s]
    omega

/-- Full characterization of the loop in `compute`: the returned state is
the k-fold iterate of the loop body for some k at most the budget; when
`true` is returned, k is positive and the k-th iterate passes the
convergence test while no earlier one did; when `false` is returned the
whole budget was used and no performed step passed the test. -/
lemma compute_characterize (A : Mat) (tol : ℝ) : ∀ (n : ℕ) (s : State),
    ∃ k, k ≤ n ∧ (compute A tol n s).1 = ((stepFn A)^[k]) s ∧
      ((compute A tol n s).2 = true →
        0 < k ∧ converged A (((stepFn A)^[k]) s) tol = true) ∧
      (∀ j, 0 < j → j < k → converged A (((stepFn A)^[j]) s) tol = false) ∧
      ((compute A tol n s).2 = false →
        k = n ∧ ∀ j, 0 < j → j ≤ n → converged A (((stepFn A)^[j]) s) tol = false)
  | 0, s => by
    refine ⟨0, le_refl 0, rfl, ?_, ?_, ?_⟩
    · intro h
      simp [compute_zero] at h
    · intro j hj hjk
      omega
    · intro _
      exact ⟨rfl, fun j hj hj0 => by omega⟩
  | n + 1, s => by
    rw [compute_succ]
    by_cases hc : converged A (stepFn A s) tol = true
    · rw [if_pos hc]
      refine ⟨1, by omega, by simp, ?_, ?_, ?_⟩
      · intro _
        exact ⟨one_pos, by simpa using hc⟩
      · intro j hj hjk
        omega
      · intro h
        simp at h
    · rw [if_neg hc]
      have hcf : converged A (stepFn A s) tol = false := by
        simpa using hc
      obtain ⟨k, hk, h1, h2, h3, h4⟩ := compute_characterize A tol n (stepFn A s)
      refine ⟨k + 1, by omega, ?_, ?_, ?_, ?_⟩
      · rw [h1, Function.iterate_succ_apply]
      · intro h
        obtain ⟨hk0, hkc⟩ := h2 h
        exact ⟨by omega, by rwa [Function.iterate_succ_apply]⟩
      · intro j hj hjk
        obtain ⟨m, rfl⟩ : ∃ m, j = m + 1 := ⟨j - 1, by omega⟩
        rw [Function.iterate_succ_apply]
        rcases Nat.eq_zero_or_pos m with hm | hm
        · subst hm
          simpa using hcf
        · exact h3 m hm (by omega)
      · intro h
        obtain ⟨hkn, hall⟩ := h4 h
        refine ⟨by omega, ?_⟩
        intro j hj hjn
        obtain ⟨m, rfl⟩ : ∃ m, j = m + 1 := ⟨j - 1, by omega⟩
        rw [Function.iterate_succ_apply]
        rcases Nat.eq_zero_or_pos m with hm | hm
        · subst hm
          simpa using hcf
        · exact hall m hm (by omega)

/-! ### Evaluation lemmas for concrete scenarios -/

lemma dot_single (a b : ℝ) : dot [a] [b] = a * b := by
  simp [dot]

lemma sqNorm_single (a : ℝ) : sqNorm [a] = a * a := by
  simp [sqNorm, dot]

lemma matVec_single (a b : ℝ) : matVec [[a]] [b] = [a * b] := by
  simp [matVec, dot]

lemma vnorm_single_nonneg {a : ℝ} (h : 0 ≤ a) : vnorm [a] = a := by
  unfold vnorm
  rw [sqNorm_single]
  exact Real.sqrt_mul_self h

lemma normalize_single_pos {a : ℝ} (h : 0 < a) : normalize [a] = [1] := by
  unfold normalize
  rw [if_pos (by rw [sqNorm_single]; nlinarith)]
  rw [vnorm_single_nonneg h.le]
  have ha : a ≠ 0 := ne_of_gt h
  simp [smul]
  field_simp

lemma powerIteration_single_pos {a b : ℝ} (h : 0 < a * b) :
    powerIteration [[a]] [b] = [1] := by
  unfold powerIteration
  rw [matVec_single]
  exact normalize_single_pos h

lemma init_single {a : ℝ} (h : 0 < a) (r : Vec) :
    init [[a]] (some [1]) r = ⟨0, 0, [1]⟩ := by
  unfold init
  simp only [Option.getD_some]
  rw [normalize_of_sqNorm_one (by rw [sqNorm_single]; norm_num)]
  rw [powerIteration_single_pos (by simpa using h)]

lemma converged_ritzVector_one (a tol : ℝ) (s : State) (h : s.ritzVector = [1]) :
    converged [[a]] s tol = decide (0 < tol) := by
  simp [converged, h, matVec, dot, smul, vsub, vnorm, sqNorm]

lemma stepFn_ritzVector_one {a : ℝ} (h : 0 < a) (s : State) (hv : s.ritzVector = [1]) :
    stepFn [[a]] s = ⟨s.nrIterations + 1, a, [1]⟩ := by
  unfold stepFn
  rw [hv, powerIteration_single_pos (by simpa using h)]
  simp [matVec, dot]

/-! ### Claims -/

/-- Claim C1, counterexample: with operator [[2]] and initial vector [1],
the post-construction state already passes the convergence test at
tolerance 1 (the residual is 0), yet compute with maxIterations = 0
returns false — not the value of the convergence test, as the claim
states. -/
theorem C1_counterexample :
    converged [[(2 : ℝ)]] (init [[(2 : ℝ)]] (some [1]) [1]) 1 = true ∧
    (compute [[(2 : ℝ)]] 1 0 (init [[(2 : ℝ)]] (some [1]) [1])).2 = false := by
  have h0 : init [[(2 : ℝ)]] (some [1]) [1] = ⟨0, 0, [1]⟩ :=
    init_single (by norm_num) [1]
  constructor
  · rw [h0, converged_ritzVector_one]
    · exact decide_eq_true (by norm_num)
    · rfl
  · rfl

/-- Claim C1 (amended): compute with maxIterations = 0 returns false
unconditionally (isConverged starts false and the loop body never runs)
and leaves every solver field unchanged. -/
theorem C1_compute_zero_returns_false (A : Mat) (tol : ℝ) (s : State) :
    compute A tol 0 s = (s, false) := rfl

/-- Claim C2, counterexample: operator of dimension 5 (a 5×5 zero
matrix) and a supplied initial vector of length 3 — the spec's
DimensionMismatch scenario.  Construction does not fail: it produces a
complete solver state, refuting that no solver instance is produced. -/
theorem C2_counterexample :
    init [[0, 0, 0, 0, 0], [0, 0, 0, 0, 0], [0, 0, 0, 0, 0], [0, 0, 0, 0, 0],
        [(0 : ℝ), 0, 0, 0, 0]] (some [1, 0, 0]) [0, 0, 0, 0, 0] =
      ⟨0, 0, [0, 0, 0, 0, 0]⟩ := by
  have hx : normalize ([1, 0, 0] : Vec) = [1, 0, 0] :=
    normalize_of_sqNorm_one (by simp [sqNorm, dot])
  have hm : matVec [[0, 0, 0, 0, 0], [0, 0, 0, 0, 0], [0, 0, 0, 0, 0],
      [0, 0, 0, 0, 0], [(0 : ℝ), 0, 0, 0, 0]] [1, 0, 0] = [0, 0, 0, 0, 0] := by
    simp [matVec, dot]
  have hz : normalize ([0, 0, 0, 0, 0] : Vec) = [0, 0, 0, 0, 0] :=
    normalize_of_sqNorm_zero (by simp [sqNorm, dot])
  unfold init powerIteration
  simp only [Option.getD_some]
  rw [hx, hm, hz]

/-- Claim C2 (amended): the constructor performs no dimension check and
has no failure path: for every operator A, every supplied initial vector
(of any length, matching A or not), and every random vector, it produces
the state ⟨0, 0, powerIteration A (normalize x0)⟩; omitting the initial
vector uses the random one instead. -/
theorem C2_no_dimension_check (A : Mat) (v r : Vec) :
    init A (some v) r = ⟨0, 0, powerIteration A (normalize v)⟩ ∧
    init A none r = ⟨0, 0, powerIteration A (normalize r)⟩ :=
  ⟨rfl, rfl⟩

/-- Claim C3, counterexample: immediately after construction with
operator [[2]] and initial vector [1], the stored ritzValue is 0 while
the Rayleigh quotient of the stored ritzVector is 2, so the claimed
invariant fails in the post-construction state. -/
theorem C3_counterexample :
    ¬ ((init [[(2 : ℝ)]] (some [1]) [1]).ritzValue =
        dot (init [[(2 : ℝ)]] (some [1]) [1]).ritzVector
          (matVec [[(2 : ℝ)]] (init [[(2 : ℝ)]] (some [1]) [1]).ritzVector)) := by
  rw [init_single (by norm_num)]
  simp [dot, matVec]

/-- Claim C3 (amended): after every compute call with maxIterations ≥ 1
(every such call performs at least one refinement step), the stored
ritzValue equals the Rayleigh quotient of the stored ritzVector.  After
construction the invariant does not hold: ritzValue is initialized to
0 there. -/
theorem C3_rayleigh_after_compute (A : Mat) (tol : ℝ) (n : ℕ) (s : State)
    (hn : 1 ≤ n) :
    ((compute A tol n s).1).ritzValue =
      dot ((compute A tol n s).1).ritzVector
        (matVec A ((compute A tol n s).1).ritzVector) := by
  obtain ⟨k, hk, h1, h2, h3, h4⟩ := compute_characterize A tol n s
  have hk1 : 1 ≤ k := by
    by_cases hb : (compute A tol n s).2 = true
    · exact (h2 hb).1
    · have hkn := (h4 (by simpa using hb)).1
      omega
  obtain ⟨m, rfl⟩ : ∃ m, k = m + 1 := ⟨k - 1, by omega⟩
  rw [h1, Function.iterate_succ_apply']
  exact stepFn_rayleigh A _

/-- Witness for C3: the hypothesis maxIterations ≥ 1 holds at the
concrete instance (operator [[2]], initial vector [1], tolerance 1, one
iteration), where the theorem yields the Rayleigh-quotient equation. -/
theorem C3_witness :
    1 ≤ 1 ∧
    ((compute [[(2 : ℝ)]] 1 1 (init [[(2 : ℝ)]] (some [1]) [1])).1).ritzValue =
      dot ((compute [[(2 : ℝ)]] 1 1 (init [[(2 : ℝ)]] (some [1]) [1])).1).ritzVector
        (matVec [[(2 : ℝ)]]
          ((compute [[(2 : ℝ)]] 1 1 (init [[(2 : ℝ)]] (some [1]) [1])).1).ritzVector) :=
  ⟨le_refl 1, C3_rayleigh_after_compute [[(2 : ℝ)]] 1 1 _ (le_refl 1)⟩

/-- Claim C4 (confirmed): each loop step of compute replaces ritzVector
by powerIteration(ritzVector), recomputes ritzValue as the Rayleigh
quotient of the new vector, and increments the iteration count; compute
performs at most n such steps, returns true the first time the
convergence test passes after a step (performing no further steps), and
returns false exactly when all n steps complete with no test passing. -/
theorem C4_compute_loop (A : Mat) (tol : ℝ) (n : ℕ) (s : State) :
    (∀ t : State, stepFn A t =
      { nrIterations := t.nrIterations + 1
        ritzValue := dot (powerIteration A t.ritzVector)
          (matVec A (powerIteration A t.ritzVector))
        ritzVector := powerIteration A t.ritzVector }) ∧
    ∃ k, k ≤ n ∧ (compute A tol n s).1 = ((stepFn A)^[k]) s ∧
      ((compute A tol n s).2 = true →
        0 < k ∧ converged A (((stepFn A)^[k]) s) tol = true) ∧
      (∀ j, 0 < j → j < k → converged A (((stepFn A)^[j]) s) tol = false) ∧
      ((compute A tol n s).2 = false →
        k = n ∧ ∀ j, 0 < j → j ≤ n → converged A (((stepFn A)^[j]) s) tol = false) :=
  ⟨fun _ => rfl, compute_characterize A tol n s⟩

/-- Claim C5, counterexample: with the 1×1 zero operator and the vector
[1], the operator application is the zero vector (norm 0, below any
epsilon), yet powerIteration does not fail with any error: it silently
returns the zero vector. -/
theorem C5_counterexample : powerIteration [[(0 : ℝ)]] [1] = [0] := by
  unfold powerIteration
  rw [matVec_single, zero_mul]
  exact normalize_of_sqNorm_zero (by simp [sqNorm, dot])

/-- Claim C5 (amended): powerIteration has no failure path: when the
operator application has squared norm 0 it returns that product (the
zero vector) unchanged, because Eigen's normalize only skips the
division for an exactly zero squared norm; no DegenerateVector error
exists in the code. -/
theorem C5_no_degenerate_error (A : Mat) (x : Vec)
    (h : sqNorm (matVec A x) = 0) :
    powerIteration A x = matVec A x :=
  normalize_of_sqNorm_zero h

/-- Witness for C5: the 1×1 zero operator sends [1] to a vector of
squared norm 0, and powerIteration returns that product unchanged. -/
theorem C5_witness :
    sqNorm (matVec [[(0 : ℝ)]] [1]) = 0 ∧
    powerIteration [[(0 : ℝ)]] [1] = matVec [[(0 : ℝ)]] [1] := by
  have h : sqNorm (matVec [[(0 : ℝ)]] [1]) = 0 := by
    norm_num [sqNorm, matVec, dot]
  exact ⟨h, C5_no_degenerate_error [[(0 : ℝ)]] [1] h⟩

/-- Claim C6 (confirmed): the operator applications actually performed
by a compute call act on the ritzVectors of the iterates the call
reaches — iterate k is reached exactly when the call performs more than
k steps, i.e. when the iteration counter grows past s.nrIterations + k.
Provided each of those performed applications is non-zero, the
ritzVector stored after the call has Euclidean norm 1; and provided the
one operator application the constructor itself performs (on the
normalized seed, line 66) is non-zero, the ritzVector stored at
construction has Euclidean norm 1 — unit norm at every observation
point. -/
theorem C6_unit_norm (A : Mat) (x0 r : Vec) (tol : ℝ) (n : ℕ) (s : State)
    (h0 : 0 < sqNorm (matVec A (normalize x0)))
    (hs : vnorm s.ritzVector = 1)
    (hn : ∀ k, s.nrIterations + k < (compute A tol n s).1.nrIterations →
      0 < sqNorm (matVec A ((((stepFn A)^[k]) s).ritzVector))) :
    vnorm ((init A (some x0) r).ritzVector) = 1 ∧
    vnorm ((compute A tol n s).1.ritzVector) = 1 := by
  constructor
  · have hv : (init A (some x0) r).ritzVector =
        normalize (matVec A (normalize x0)) := rfl
    rw [hv]
    exact vnorm_normalize h0
  · obtain ⟨k, hk, h1, _, _, _⟩ := compute_characterize A tol n s
    have hcount : (compute A tol n s).1.nrIterations = s.nrIterations + k := by
      rw [h1, iterate_stepFn_nrIterations]
    cases k with
    | zero =>
      rw [h1]
      simpa using hs
    | succ m =>
      rw [h1, Function.iterate_succ_apply', stepFn_ritzVector]
      unfold powerIteration
      apply vnorm_normalize
      apply hn
      rw [hcount]
      omega

/-- Witness for C6: operator [[2]], seed [1], state with ritzVector [1],
budget 1, tolerance 1 — the call performs exactly one step, the one
performed application is non-zero, and the norms are 1. -/
theorem C6_witness :
    0 < sqNorm (matVec [[(2 : ℝ)]] (normalize [1])) ∧
    vnorm (State.mk 0 0 [1]).ritzVector = 1 ∧
    (∀ k, (State.mk 0 0 [1]).nrIterations + k <
        (compute [[(2 : ℝ)]] 1 1 (State.mk 0 0 [1])).1.nrIterations →
      0 < sqNorm
        (matVec [[(2 : ℝ)]] ((((stepFn [[(2 : ℝ)]])^[k]) (State.mk 0 0 [1])).ritzVector))) ∧
    (vnorm ((init [[(2 : ℝ)]] (some [1]) [1]).ritzVector) = 1 ∧
      vnorm ((compute [[(2 : ℝ)]] 1 1 (State.mk 0 0 [1])).1.ritzVector) = 1) := by
  have h0 : 0 < sqNorm (matVec [[(2 : ℝ)]] (normalize [1])) := by
    rw [normalize_of_sqNorm_one (by norm_num [sqNorm, dot])]
    norm_num [sqNorm, matVec, dot]
  have hs : vnorm (State.mk 0 0 [1]).ritzVector = 1 :=
    vnorm_single_nonneg (by norm_num)
  have hcomp : compute [[(2 : ℝ)]] 1 1 (State.mk 0 0 [1]) = (⟨1, 2, [1]⟩, true) := by
    rw [show (1 : ℕ) = 0 + 1 from rfl, compute_succ]
    have hst : stepFn [[(2 : ℝ)]] (State.mk 0 0 [1]) = ⟨1, 2, [1]⟩ :=
      stepFn_ritzVector_one (by norm_num) _ rfl
    rw [hst, converged_ritzVector_one 2 1 _ rfl,
      decide_eq_true (show (0 : ℝ) < 1 by norm_num)]
    simp
  have hn : ∀ k, (State.mk 0 0 [1]).nrIterations + k <
      (compute [[(2 : ℝ)]] 1 1 (State.mk 0 0 [1])).1.nrIterations →
      0 < sqNorm
        (matVec [[(2 : ℝ)]] ((((stepFn [[(2 : ℝ)]])^[k]) (State.mk 0 0 [1])).ritzVector)) := by
    intro k hk
    rw [hcomp] at hk
    have hk0 : k = 0 := by
      simp at hk
      exact hk
    subst hk0
    norm_num [sqNorm, matVec, dot]
  exact ⟨h0, hs, hn, C6_unit_norm [[(2 : ℝ)]] [1] [1] 1 1 _ h0 hs hn⟩

/-- Claim C7 (confirmed): converged(tol) returns true exactly when the
Ritz residual norm, computed from the locally recomputed Rayleigh
quotient of the stored ritzVector, is strictly below the tolerance.  In
the embedding converged is a pure function of the state (the C++ method
is const), so it mutates neither ritzValue nor ritzVector nor the
iteration count. -/
theorem C7_converged_iff (A : Mat) (s : State) (tol : ℝ) :
    converged A s tol = true ↔
      vnorm (vsub (matVec A s.ritzVector)
        (smul (dot s.ritzVector (matVec A s.ritzVector)) s.ritzVector)) < tol := by
  simp [converged]

/-- With operator [[2]] and tolerance 0 the convergence test never
passes (the residual is exactly 0 and the comparison is strict), so
every compute call runs its full budget from any state with ritzVector
[1]; the iteration counter grows by exactly the budget and the vector
stays [1]. -/
lemma compute_two_tol_zero : ∀ (n : ℕ) (s : State), s.ritzVector = [1] →
    (compute [[(2 : ℝ)]] 0 n s).1.nrIterations = s.nrIterations + n ∧
    (compute [[(2 : ℝ)]] 0 n s).1.ritzVector = [1] := by
  intro n
  induction n with
  | zero =>
    intro s h
    exact ⟨rfl, h⟩
  | succ m ih =>
    intro s h
    rw [compute_succ]
    have hst : stepFn [[(2 : ℝ)]] s = ⟨s.nrIterations + 1, 2, [1]⟩ :=
      stepFn_ritzVector_one (by norm_num) s h
    have hcv : converged [[(2 : ℝ)]] (stepFn [[(2 : ℝ)]] s) 0 = false := by
      rw [hst, converged_ritzVector_one 2 0 _ rfl]
      exact decide_eq_false (lt_irrefl 0)
    rw [hcv]
    simp only [Bool.false_eq_true, if_false]
    have hrec := ih (stepFn [[(2 : ℝ)]] s) (by rw [hst])
    refine ⟨?_, hrec.2⟩
    rw [hrec.1, stepFn_nrIterations]
    omega

/-- Claim C8, counterexample: construct with operator [[2]] and initial
vector [1]; call compute(2, 0) (never converges, counter reaches 2),
then compute(1, 0): afterwards iterationsPerformed() is 3, outside
[0, 1] for that second call. -/
theorem C8_counterexample :
    ¬ ((compute [[(2 : ℝ)]] 0 1
        ((compute [[(2 : ℝ)]] 0 2 (init [[(2 : ℝ)]] (some [1]) [1])).1)).1.nrIterations ≤ 1) := by
  have h0 : init [[(2 : ℝ)]] (some [1]) [1] = ⟨0, 0, [1]⟩ :=
    init_single (by norm_num) [1]
  rw [h0]
  have h2 := compute_two_tol_zero 2 ⟨0, 0, [1]⟩ rfl
  have h1 := compute_two_tol_zero 1 (compute [[(2 : ℝ)]] 0 2 ⟨0, 0, [1]⟩).1 h2.2
  rw [h1.1, h2.1]
  omega

/-- Claim C8 (amended): every compute(n, tol) call increases the
iteration counter by at most n and never decreases it, so the counter is
non-decreasing across successive calls and a first call on a freshly
constructed solver (counter 0) ends in [0, n].  The absolute interval of
the original claim fails for later calls because the counter is
cumulative. -/
theorem C8_iteration_bounds (A : Mat) (tol : ℝ) (n : ℕ) (s : State) :
    s.nrIterations ≤ (compute A tol n s).1.nrIterations ∧
    (compute A tol n s).1.nrIterations ≤ s.nrIterations + n := by
  obtain ⟨k, hk, h1, _, _, _⟩ := compute_characterize A tol n s
  rw [h1, iterate_stepFn_nrIterations]
  omega

/-- Claim C9 (confirmed): with an explicitly supplied initial vector the
random vector is ignored, so two runs constructed from the same operator
and the same initial vector coincide: the constructed states are equal,
every iterate of the refinement step is equal, and every compute call
with identical parameters returns an identical state/result pair —
identical ritzValue and ritzVector sequences. -/
theorem C9_deterministic (A : Mat) (v r1 r2 : Vec) (tol : ℝ) :
    init A (some v) r1 = init A (some v) r2 ∧
    (∀ m, ((stepFn A)^[m]) (init A (some v) r1) =
      ((stepFn A)^[m]) (init A (some v) r2)) ∧
    (∀ n, compute A tol n (init A (some v) r1) =
      compute A tol n (init A (some v) r2)) :=
  ⟨rfl, fun _ => rfl, fun _ => rfl⟩

/-- Claim C10 (confirmed): converged reads only the stored ritzVector —
it recomputes the Rayleigh quotient locally and never reads the stored
ritzValue — so any two states over the same operator that agree on
ritzVector get the same answer; in particular, immediately after the
construction with operator [[2]] and seed [1], converged already holds
at tolerance 1 while eigenvalue() still returns the initial baseline 0. -/
theorem C10_converged_ignores_ritzValue (A : Mat) (tol : ℝ) (s s' : State)
    (h : s.ritzVector = s'.ritzVector) :
    converged A s tol = converged A s' tol ∧
    converged [[(2 : ℝ)]] (init [[(2 : ℝ)]] (some [1]) [1]) 1 = true ∧
    eigenvalue (init [[(2 : ℝ)]] (some [1]) [1]) = 0 := by
  refine ⟨?_, ?_, ?_⟩
  · unfold converged
    rw [h]
  · rw [init_single (by norm_num), converged_ritzVector_one 2 1 _ rfl]
    exact decide_eq_true (by norm_num)
  · rw [init_single (by norm_num)]
    rfl

/-- Witness for C10: two concrete states with the same ritzVector but
different ritzValue fields (0 and 42) get the same converged answer. -/
theorem C10_witness :
    (State.mk 0 0 [1]).ritzVector = (State.mk 7 42 [1]).ritzVector ∧
    (converged [[(3 : ℝ)]] (State.mk 0 0 [1]) 1 =
        converged [[(3 : ℝ)]] (State.mk 7 42 [1]) 1 ∧
      converged [[(2 : ℝ)]] (init [[(2 : ℝ)]] (some [1]) [1]) 1 = true ∧
      eigenvalue (init [[(2 : ℝ)]] (some [1]) [1]) = 0) :=
  ⟨rfl, C10_converged_ignores_ritzValue [[(3 : ℝ)]] 1 _ _ rfl⟩

end PowerMethodModel
